import Mathlib

/-!
Shallow embedding of the sheet-to-RSS converter (src/main.go) and proofs of
the specification claims.  Go stdlib primitives that the program uses are
modelled as follows:

* time.Parse / time.Now / Time.UTC / Time.Format are abstracted into a
  TimeEnv structure, since the claims about the date parser concern only its
  control flow (first layout that parses wins, silent fallback to now).
* encoding/csv is embedded as an executable reader over the character list
  of the input (csvReadAll below), including quoted fields, carriage-return
  normalisation, blank-line skipping, bare-quote errors and the
  fields-per-record check of the default csv.Reader configuration.
* encoding/xml marshalling of the rss value is embedded following the
  struct tags in main.go (xmlMarshal below), including the escaping rules of
  xml.EscapeText and the omitempty options on pubDate and category.
* crypto/sha1 and the fmt verb used for the digest are embedded concretely.
-/

namespace FedGov

/-- Abstraction of the Go time primitives used by main.go.  parse models
time.Parse for one layout (none = parse error), now models time.Now, utc
models Time.UTC and format models formatting with time.RFC1123Z. -/
structure TimeEnv (τ : Type) where
  parse : String → String → Option τ
  now : τ
  utc : τ → τ
  format : τ → String

/-- The layout list tried by parseDate in main.go, in source order:
time.RFC3339, time.RFC3339Nano, time.Stamp, time.RFC822, time.RFC822Z,
then the two slash-separated date layouts. -/
def layouts : List String :=
  ["2006-01-02T15:04:05Z07:00",
   "2006-01-02T15:04:05.999999999Z07:00",
   "Jan _2 15:04:05",
   "02 Jan 06 15:04 MST",
   "02 Jan 06 15:04 -0700",
   "1/2/2006",
   "01/02/2006"]

/-- The loop body of parseDate: try layouts in order, return the first
successful parse converted to UTC. -/
def parseDateAux {τ : Type} (env : TimeEnv τ) (s : String) : List String → τ
  | [] => env.utc env.now
  | l :: ls =>
    match env.parse l s with
    | some p => env.utc p
    | none => parseDateAux env s ls

/-- parseDate from main.go: first successful parse of the layout list in
UTC, falling back to the current time in UTC. -/
def parseDate {τ : Type} (env : TimeEnv τ) (s : String) : τ :=
  parseDateAux env s layouts

/-- One feed item; the Go item struct with the XMLName bookkeeping dropped.
Zero value (all fields empty) corresponds to new(item). -/
structure Item where
  title : String := ""
  link : String := ""
  description : String := ""
  pubDate : String := ""
  category : String := ""
deriving Repr, DecidableEq

/-- new(item): the Go zero value. -/
def emptyItem : Item := {}

/-- The get closure inside fromRecord: fields[i] if in range, else "". -/
def getF (fields : List String) (i : Nat) : String :=
  if i < fields.length then fields.getD i "" else ""

/-- The body of the for-range loop of fromRecord: walk the header row with
its index, updating the item and the category accumulator. -/
def fromRecordAux {τ : Type} (env : TimeEnv τ) (fields : List String) :
    List String → Nat → Item → List String → Item × List String
  | [], _, e, cats => (e, cats)
  | h :: hs, i, e, cats =>
    if h = "date" then
      fromRecordAux env fields hs (i + 1)
        { e with pubDate := env.format (parseDate env (getF fields i)) } cats
    else if h = "description" then
      fromRecordAux env fields hs (i + 1) { e with title := getF fields i } cats
    else if h = "article" then
      fromRecordAux env fields hs (i + 1) { e with link := getF fields i } cats
    else if h = "activity" ∨ h = "branch" then
      fromRecordAux env fields hs (i + 1) e (cats ++ [getF fields i])
    else if h = "detail" then
      fromRecordAux env fields hs (i + 1) { e with description := getF fields i } cats
    else
      fromRecordAux env fields hs (i + 1) e cats

/-- fromRecord from main.go: build one item from the header row and one
data row; the category is the comma-join of the accumulated activity and
branch values. -/
def fromRecord {τ : Type} (env : TimeEnv τ) (headers fields : List String) : Item :=
  let p := fromRecordAux env fields headers 0 emptyItem []
  { p.1 with category := String.intercalate "," p.2 }

/-- The channel struct of main.go. -/
structure Channel where
  title : String
  link : String
  description : String
  items : List Item
deriving Repr, DecidableEq

/-- The rss struct of main.go; channel is a pointer there, hence Option.
Zero value (new(rss)) has version "" and no channel. -/
structure Rss where
  version : String := ""
  channel : Option Channel := none
deriving Repr, DecidableEq

/-- new(rss): the Go zero value. -/
def emptyRss : Rss := {}

/-- Feed metadata constants from main.go. -/
def feedTitle : String := "Federal Government 2017"

/-- Feed description constant from main.go. -/
def feedDesc : String := "Summaries of events from the US Government."

/-- Feed link constant from main.go. -/
def feedURL : String := "http://jlord.us/federal-gov/"

/-- NumEntries constant from main.go. -/
def numEntries : Int := 20

/-- The part of fromCSV after csv parsing: rs is the receiver (returned
unchanged together with the error on the failure path).  start is computed
in Go int arithmetic, the loop runs i = len(records)-1 down while i > start,
reading records[i]. -/
def fromCSVRecords {τ : Type} (env : TimeEnv τ) (rs : Rss)
    (records : List (List String)) (maxRecords : Int) : Rss × Option String :=
  if records.length ≤ 1 then (rs, some "no records")
  else
    let headers := records.headD []
    let start0 : Int := (records.length : Int) - maxRecords
    let start : Int := if start0 ≤ 0 then 1 else start0
    let count : Nat := ((records.length : Int) - 1 - start).toNat
    let idxs : List Nat := (List.range count).map (fun k => records.length - 1 - k)
    let out : List Item := idxs.map (fun i => fromRecord env headers (records.getD i []))
    ({ version := "2.0",
       channel := some { title := feedTitle, link := feedURL,
                         description := feedDesc, items := out } }, none)

/-! ### The CSV reader (embedding of encoding/csv as used by fromCSV)

csv.NewReader(r).ReadAll() with the default configuration: comma separator,
no comment character, FieldsPerRecord = 0 (the first record fixes the
expected field count and later records with a different count are an
error), LazyQuotes off (a quote inside an unquoted field is an error,
and a quoted field must be terminated and followed by a separator),
terminal carriage-return-linefeed normalised to linefeed, blank lines
skipped between records. -/

/-- Field separator outcome: none = end of input, some c = the field was
terminated by c (a comma or a linefeed). -/
def sepComma : Option Char := some ','

/-- Linefeed separator marker. -/
def sepNL : Option Char := some '\n'

/-- Read one unquoted field: characters up to a comma, a linefeed or the
end of input.  A carriage return directly before a linefeed is dropped
(line normalisation); a quote is a bare-quote error. -/
def readUnquoted (acc : List Char) : List Char → Except String (String × Option Char × List Char)
  | [] => .ok (String.mk acc.reverse, none, [])
  | ',' :: rest => .ok (String.mk acc.reverse, sepComma, rest)
  | '\r' :: '\n' :: rest => .ok (String.mk acc.reverse, sepNL, rest)
  | '\n' :: rest => .ok (String.mk acc.reverse, sepNL, rest)
  | '"' :: _ => .error "bare \x22 in non-quoted field"
  | c :: rest => readUnquoted (c :: acc) rest

/-- Read the body of a quoted field (the opening quote is already
consumed).  A doubled quote is a literal quote, carriage-return-linefeed
becomes linefeed, and the closing quote must be followed by a comma, a
line end or the end of input. -/
def readQuoted (acc : List Char) : List Char → Except String (String × Option Char × List Char)
  | [] => .error "extraneous or missing \x22 in quoted-field"
  | '"' :: '"' :: rest => readQuoted ('"' :: acc) rest
  | '"' :: ',' :: rest => .ok (String.mk acc.reverse, sepComma, rest)
  | '"' :: '\r' :: '\n' :: rest => .ok (String.mk acc.reverse, sepNL, rest)
  | '"' :: '\n' :: rest => .ok (String.mk acc.reverse, sepNL, rest)
  | '"' :: [] => .ok (String.mk acc.reverse, none, [])
  | '"' :: _ :: _ => .error "extraneous or missing \x22 in quoted-field"
  | '\r' :: '\n' :: rest => readQuoted ('\n' :: acc) rest
  | c :: rest => readQuoted (c :: acc) rest

/-- Read one field, quoted or unquoted. -/
def readOneField (cs : List Char) : Except String (String × Option Char × List Char) :=
  match cs with
  | '"' :: rest => readQuoted [] rest
  | _ => readUnquoted [] cs

/-- Read the fields of one record.  The fuel argument only serves
termination; each field consumes at least its separator, so the initial
fuel (length of the input plus one) is never exhausted. -/
def readRecordAux (fuel : Nat) (acc : List String) (cs : List Char) :
    Except String (List String × List Char) :=
  match fuel with
  | 0 => .error "out of fuel"
  | fuel + 1 =>
    match readOneField cs with
    | .error e => .error e
    | .ok (f, sep, rest) =>
      if sep = sepComma then readRecordAux fuel (acc ++ [f]) rest
      else .ok (acc ++ [f], rest)

/-- Skip blank lines (a lone linefeed, or carriage return plus linefeed)
before a record, as csv.Reader does. -/
def skipBlank : List Char → List Char
  | '\n' :: rest => skipBlank rest
  | '\r' :: '\n' :: rest => skipBlank rest
  | cs => cs

/-- ReadAll: read records until the input is exhausted, fixing the
expected field count from the first record and rejecting any record whose
count differs.  Fuel as in readRecordAux. -/
def readAllAux (fuel : Nat) (expected : Option Nat) (acc : List (List String))
    (cs : List Char) : Except String (List (List String)) :=
  match fuel with
  | 0 => .error "out of fuel"
  | fuel + 1 =>
    let cs := skipBlank cs
    match cs with
    | [] => .ok acc
    | _ =>
      match readRecordAux (cs.length + 1) [] cs with
      | .error e => .error e
      | .ok (rec, rest) =>
        match expected with
        | none => readAllAux fuel (some rec.length) (acc ++ [rec]) rest
        | some n =>
          if rec.length = n then readAllAux fuel (some n) (acc ++ [rec]) rest
          else .error "wrong number of fields"

/-- csv.NewReader(r).ReadAll() over the whole input string. -/
def csvReadAll (s : String) : Except String (List (List String)) :=
  readAllAux (s.length + 1) none [] s.data

/-- fromCSV from main.go: parse the CSV input, then build the feed.  rs is
the receiver; on every error path it is returned unchanged alongside the
error, mirroring the early returns of the Go method. -/
def fromCSV {τ : Type} (env : TimeEnv τ) (rs : Rss) (s : String)
    (maxRecords : Int) : Rss × Option String :=
  match csvReadAll s with
  | .error e => (rs, some e)
  | .ok records => fromCSVRecords env rs records maxRecords

/-! ### XML marshalling (embedding of xml.Marshal on the rss value)

Field order and element names follow the struct tags in main.go; pubDate
and category carry omitempty.  Text and attribute values are escaped as by
xml.EscapeText: the seven special characters become character references
and every rune outside the XML character range is replaced by the Unicode
replacement character. -/

/-- isInCharacterRange from encoding/xml: tab, linefeed, carriage return,
and the three scalar ranges allowed in XML 1.0. -/
def inCharacterRange (c : Char) : Bool :=
  let n := c.toNat
  n = 0x9 || n = 0xA || n = 0xD ||
  (0x20 ≤ n && n ≤ 0xD7FF) ||
  (0xE000 ≤ n && n ≤ 0xFFFD) ||
  (0x10000 ≤ n && n ≤ 0x10FFFF)

/-- Escape one character as xml.EscapeText does. -/
def escChar (c : Char) : String :=
  if c = '"' then "&#34;"
  else if c = '\x27' then "&#39;"
  else if c = '&' then "&amp;"
  else if c = '<' then "&lt;"
  else if c = '>' then "&gt;"
  else if c = '\t' then "&#x9;"
  else if c = '\n' then "&#xA;"
  else if c = '\r' then "&#xD;"
  else if inCharacterRange c then String.singleton c
  else "�"

/-- xml.EscapeText over a character list. -/
def escData : List Char → List Char
  | [] => []
  | c :: rest => (escChar c).data ++ escData rest

/-- xml.EscapeText over a whole string. -/
def escapeText (s : String) : String :=
  String.mk (escData s.data)

/-- Marshal one item element.  Adjacent tag literals are written as one
string constant; the emitted bytes are exactly those of xml.Marshal. -/
def marshalItem (it : Item) : String :=
  "<item><title>" ++ escapeText it.title ++
  "</title><link>" ++ escapeText it.link ++
  "</link><description>" ++ escapeText it.description ++
  "</description>" ++
  (if it.pubDate = "" then "" else "<pubDate>" ++ escapeText it.pubDate ++ "</pubDate>") ++
  (if it.category = "" then "" else "<category>" ++ escapeText it.category ++ "</category>") ++
  "</item>"

/-- Marshal the item list in order. -/
def marshalItems : List Item → String
  | [] => ""
  | it :: rest => marshalItem it ++ marshalItems rest

/-- Marshal the channel element. -/
def marshalChannel (c : Channel) : String :=
  "<channel><title>" ++ escapeText c.title ++
  "</title><link>" ++ escapeText c.link ++
  "</link><description>" ++ escapeText c.description ++
  "</description>" ++
  marshalItems c.items ++
  "</channel>"

/-- xml.Marshal on the rss value: the rss element with its version
attribute; a nil channel pointer marshals to nothing. -/
def xmlMarshal (r : Rss) : String :=
  "<rss version=\x22" ++ escapeText r.version ++ "\x22>" ++
  (match r.channel with
   | none => ""
   | some c => marshalChannel c) ++
  "</rss>"

/-! ### Feed-format parser

Modelled from the spec: the round-trip property of section 8 parses the
serialized feed format back into a document; the repository itself contains
no XML parser, so this reader is the spec-side inverse.  It recognises
exactly the output shape of xmlMarshal: the fixed tag skeleton, and
character data in which the references produced by escChar are decoded. -/

/-- Drop an expected literal character sequence. -/
def dropLit (lit : List Char) (cs : List Char) : Option (List Char) :=
  match lit, cs with
  | [], cs => some cs
  | l :: lit, c :: cs => if c = l then dropLit lit cs else none
  | _ :: _, [] => none

/-- Read character data up to (and not consuming) the stop character,
decoding the character references emitted by escChar (three characters
after the ampersand for lt and gt, four for the others). -/
def readText (stop : Char) (acc : List Char) : List Char → Option (String × List Char)
  | [] => none
  | c :: rest =>
    if c = stop then some (String.mk acc.reverse, c :: rest)
    else if c = '&' then
      match rest with
      | c1 :: c2 :: c3 :: rest3 =>
        if c1 = 'l' ∧ c2 = 't' ∧ c3 = ';' then readText stop ('<' :: acc) rest3
        else if c1 = 'g' ∧ c2 = 't' ∧ c3 = ';' then readText stop ('>' :: acc) rest3
        else
          match rest3 with
          | c4 :: rest4 =>
            if c1 = 'a' ∧ c2 = 'm' ∧ c3 = 'p' ∧ c4 = ';' then readText stop ('&' :: acc) rest4
            else if c1 = '#' ∧ c2 = '3' ∧ c3 = '4' ∧ c4 = ';' then readText stop ('"' :: acc) rest4
            else if c1 = '#' ∧ c2 = '3' ∧ c3 = '9' ∧ c4 = ';' then readText stop ('\x27' :: acc) rest4
            else if c1 = '#' ∧ c2 = 'x' ∧ c3 = '9' ∧ c4 = ';' then readText stop ('\t' :: acc) rest4
            else if c1 = '#' ∧ c2 = 'x' ∧ c3 = 'A' ∧ c4 = ';' then readText stop ('\n' :: acc) rest4
            else if c1 = '#' ∧ c2 = 'x' ∧ c3 = 'D' ∧ c4 = ';' then readText stop ('\r' :: acc) rest4
            else none
          | [] => none
      | _ => none
    else readText stop (c :: acc) rest

/-- Parse one item element. -/
def parseItem (cs : List Char) : Option (Item × List Char) := do
  let cs ← dropLit "<item><title>".data cs
  let (t, cs) ← readText '<' [] cs
  let cs ← dropLit "</title><link>".data cs
  let (l, cs) ← readText '<' [] cs
  let cs ← dropLit "</link><description>".data cs
  let (d, cs) ← readText '<' [] cs
  let cs ← dropLit "</description>".data cs
  let (p, cs) ←
    if "<pubDate>".data.isPrefixOf cs then do
      let cs ← dropLit "<pubDate>".data cs
      let (p, cs) ← readText '<' [] cs
      let cs ← dropLit "</pubDate>".data cs
      pure (p, cs)
    else pure ("", cs)
  let (k, cs) ←
    if "<category>".data.isPrefixOf cs then do
      let cs ← dropLit "<category>".data cs
      let (k, cs) ← readText '<' [] cs
      let cs ← dropLit "</category>".data cs
      pure (k, cs)
    else pure ("", cs)
  let cs ← dropLit "</item>".data cs
  pure ({ title := t, link := l, description := d, pubDate := p, category := k }, cs)

/-- Parse the item list; fuel only serves termination and one unit is
spent per item. -/
def parseItems (fuel : Nat) (acc : List Item) (cs : List Char) :
    Option (List Item × List Char) :=
  match fuel with
  | 0 => none
  | fuel + 1 =>
    if "<item>".data.isPrefixOf cs then
      match parseItem cs with
      | none => none
      | some (it, rest) => parseItems fuel (acc ++ [it]) rest
    else some (acc, cs)

/-- Parse a whole serialized feed document. -/
def parseFeed (s : String) : Option Rss := do
  let cs := s.data
  let cs ← dropLit "<rss version=\x22".data cs
  let (v, cs) ← readText '"' [] cs
  let cs ← dropLit "\x22><channel><title>".data cs
  let (t, cs) ← readText '<' [] cs
  let cs ← dropLit "</title><link>".data cs
  let (l, cs) ← readText '<' [] cs
  let cs ← dropLit "</link><description>".data cs
  let (d, cs) ← readText '<' [] cs
  let cs ← dropLit "</description>".data cs
  let (items, cs) ← parseItems (cs.length + 1) [] cs
  let cs ← dropLit "</channel></rss>".data cs
  match cs with
  | [] => pure { version := v,
                 channel := some { title := t, link := l, description := d, items := items } }
  | _ => none

/-! ### SHA-1 and the digest format

crypto/sha1 over the UTF-8 bytes of the serialized feed, and the two hex
renderings relevant to claim C9: hexEncode is plain hex encoding (the
wording of the spec), spaceHex is what fmt.Sprintf with the percent,
space, x verb actually produces for a byte array: two hex digits per byte
with the bytes separated by spaces. -/

/-- UTF-8 encoding of one scalar value as byte values. -/
def utf8Char (c : Char) : List Nat :=
  let n := c.toNat
  if n < 0x80 then [n]
  else if n < 0x800 then [0xC0 + n / 0x40, 0x80 + n % 0x40]
  else if n < 0x10000 then
    [0xE0 + n / 0x1000, 0x80 + n / 0x40 % 0x40, 0x80 + n % 0x40]
  else
    [0xF0 + n / 0x40000, 0x80 + n / 0x1000 % 0x40, 0x80 + n / 0x40 % 0x40, 0x80 + n % 0x40]

/-- UTF-8 bytes of a string (Go strings are byte slices in this encoding). -/
def utf8Bytes (s : String) : List Nat :=
  s.data.flatMap utf8Char

/-- Rotate a 32-bit word left by n. -/
def rotl32 (n w : Nat) : Nat :=
  ((w <<< n) + (w >>> (32 - n))) % 4294967296

/-- Big-endian bytes of a 64-bit length. -/
def be64 (n : Nat) : List Nat :=
  [n >>> 56 % 256, n >>> 48 % 256, n >>> 40 % 256, n >>> 32 % 256,
   n >>> 24 % 256, n >>> 16 % 256, n >>> 8 % 256, n % 256]

/-- Big-endian bytes of a 32-bit word. -/
def be32 (n : Nat) : List Nat :=
  [n >>> 24 % 256, n >>> 16 % 256, n >>> 8 % 256, n % 256]

/-- SHA-1 message padding: a 0x80 byte, zeros to 56 mod 64, then the
bit length in 64 bits big-endian. -/
def sha1Pad (msg : List Nat) : List Nat :=
  let zeros := (119 - msg.length % 64) % 64
  msg ++ [0x80] ++ List.replicate zeros 0 ++ be64 (8 * msg.length)

/-- Pack bytes into big-endian 32-bit words (the byte count is a multiple
of four after padding; fuel as elsewhere). -/
def wordsOf (fuel : Nat) (bs : List Nat) : List Nat :=
  match fuel, bs with
  | 0, _ => []
  | _, [] => []
  | fuel + 1, a :: b :: c :: d :: rest =>
    (a * 16777216 + b * 65536 + c * 256 + d) :: wordsOf fuel rest
  | _ + 1, _ => []

/-- The 80-entry expanded message schedule of one block. -/
def sha1Schedule (w : List Nat) : List Nat :=
  (List.range 80).foldl
    (fun acc i =>
      if i < 16 then acc ++ [w.getD i 0]
      else acc ++ [rotl32 1 ((acc.getD (i - 3) 0) ^^^ (acc.getD (i - 8) 0) ^^^
                             (acc.getD (i - 14) 0) ^^^ (acc.getD (i - 16) 0))])
    []

/-- The round function of SHA-1. -/
def sha1F (t b c d : Nat) : Nat :=
  if t < 20 then (b &&& c) ||| ((b ^^^ 4294967295) &&& d)
  else if t < 40 then b ^^^ c ^^^ d
  else if t < 60 then (b &&& c) ||| (b &&& d) ||| (c &&& d)
  else b ^^^ c ^^^ d

/-- The round constants of SHA-1. -/
def sha1K (t : Nat) : Nat :=
  if t < 20 then 0x5A827999
  else if t < 40 then 0x6ED9EBA1
  else if t < 60 then 0x8F1BBCDC
  else 0xCA62C1D6

/-- Process one 16-word block starting from a chaining state. -/
def sha1Block (h : Nat × Nat × Nat × Nat × Nat) (w : List Nat) :
    Nat × Nat × Nat × Nat × Nat :=
  let sch := sha1Schedule w
  let (h0, h1, h2, h3, h4) := h
  let st := (List.range 80).foldl
    (fun st t =>
      let (a, b, c, d, e) := st
      let tmp := (rotl32 5 a + sha1F t b c d + e + sha1K t + sch.getD t 0) % 4294967296
      (tmp, a, rotl32 30 b, c, d))
    (h0, h1, h2, h3, h4)
  let (a, b, c, d, e) := st
  ((h0 + a) % 4294967296, (h1 + b) % 4294967296, (h2 + c) % 4294967296,
   (h3 + d) % 4294967296, (h4 + e) % 4294967296)

/-- Split the word stream into 16-word blocks (fuel as elsewhere). -/
def blocksOf (fuel : Nat) (ws : List Nat) : List (List Nat) :=
  match fuel, ws with
  | 0, _ => []
  | _, [] => []
  | fuel + 1, ws => ws.take 16 :: blocksOf fuel (ws.drop 16)

/-- sha1.Sum: the 20 digest bytes of a byte message. -/
def sha1Bytes (msg : List Nat) : List Nat :=
  let padded := sha1Pad msg
  let ws := wordsOf (padded.length + 1) padded
  let blocks := blocksOf (ws.length + 1) ws
  let h := blocks.foldl sha1Block
    (0x67452301, 0xEFCDAB89, 0x98BADCFE, 0x10325476, 0xC3D2E1F0)
  be32 h.1 ++ be32 h.2.1 ++ be32 h.2.2.1 ++ be32 h.2.2.2.1 ++ be32 h.2.2.2.2

/-- One byte as two lowercase hex digits. -/
def hexPair (b : Nat) : List Char :=
  [Nat.digitChar (b / 16 % 16), Nat.digitChar (b % 16)]

/-- Plain hex encoding of a byte sequence (the wording of the spec:
hex-encoded). -/
def hexEncode (bs : List Nat) : String :=
  String.mk (bs.flatMap hexPair)

/-- The character stream of the percent, space, x format verb: hex digit
pairs with a space between consecutive bytes. -/
def spaceHexChars : List Nat → List Char
  | [] => []
  | [b] => hexPair b
  | b :: rest => hexPair b ++ ' ' :: spaceHexChars rest

/-- fmt.Sprintf with the percent, space, x verb on a byte array. -/
def spaceHex (bs : List Nat) : String :=
  String.mk (spaceHexChars bs)

/-- The digest stored by refresh in main.go. -/
def digestOf (content : String) : String :=
  spaceHex (sha1Bytes (utf8Bytes content))

/-! ### The cache and the HTTP handler -/

/-- The mutable fields of the sheet2rss struct (url omitted: the fetch is
abstracted as the string it returns). -/
structure CacheState where
  ready : Bool
  cached : String
  digest : String
deriving Repr, DecidableEq

/-- The state created in main(): zero values, ready false. -/
def initState : CacheState := { ready := false, cached := "", digest := "" }

/-- refresh() from main.go with the fetched CSV body given as the string
s: build the feed, serialize it, store bytes, digest and ready under the
lock.  Any error is log.Fatal, i.e. process termination: modelled as
none (no successor state exists). -/
def refreshStep {τ : Type} (env : TimeEnv τ) (s : String) (_st : CacheState) :
    Option CacheState :=
  match fromCSV env emptyRss s numEntries with
  | (_, some _) => none
  | (feed, none) =>
    let content := xmlMarshal feed
    some { ready := true, cached := content, digest := digestOf content }

/-- An HTTP response: status code and body. -/
structure HResponse where
  status : Nat
  body : String
deriving Repr, DecidableEq

/-- The fixed XML declaration written before the cached bytes. -/
def xmlDecl : String := "<?xml version=\x221.0\x22 encoding=\x22UTF-8\x22 ?>"

/-- ServeHTTP from main.go as a function of the cache state and the
request method.  It never mutates the cache, so the state is returned
unchanged alongside the response. -/
def serveHTTP (st : CacheState) (method : String) : CacheState × HResponse :=
  if method ≠ "GET" then (st, { status := 405, body := "" })
  else
    let content := if st.ready then st.cached else ""
    if content.length > 0 then (st, { status := 200, body := xmlDecl ++ content })
    else (st, { status := 404, body := "" })

/-- The states the cache can be in over any execution: the initial state,
and anything a successful refresh produces from a reachable state, with
any time environment and any fetched body. -/
inductive Reachable : CacheState → Prop
  | init : Reachable initState
  | refresh {τ : Type} (env : TimeEnv τ) (s : String) {st st' : CacheState} :
      Reachable st → refreshStep env s st = some st' → Reachable st'

/-! ### Spec-side definitions used to state the claims -/

/-- Following the spec wording for the date parser: the first successful
parse of the string over the layout list. -/
def firstSuccessfulParse {τ : Type} (env : TimeEnv τ) (s : String) : Option τ :=
  layouts.findSome? (fun l => env.parse l s)

/-- The number of items of a feed value. -/
def itemCount (r : Rss) : Nat :=
  match r.channel with
  | none => 0
  | some c => c.items.length

/-- The items of a feed value. -/
def itemsOf (r : Rss) : List Item :=
  match r.channel with
  | none => []
  | some c => c.items

/-- The end-to-end CSV input of the spec scenario (section 8). -/
def scenarioCSV : String :=
  "date,description,article,activity,branch,detail\n" ++
  "1/2/2017,Bill signed,http://x/1,signing,executive,Some detail\n" ++
  "1/5/2017,Vote held,http://x/2,vote,legislative,Another detail"

/-- The column names the record mapper reacts to. -/
def knownCols : List String := ["date", "description", "article", "activity", "branch", "detail"]

/-- Following the spec wording for the record mapper: the values of the
activity and branch columns in encounter order (a value past the end of
the data row reading as the empty string). -/
def catsSpec (headers fields : List String) : List String :=
  ((headers.enum).filter (fun p => p.2 = "activity" ∨ p.2 = "branch")).map
    (fun p => getF fields p.1)

/-- A concrete time environment over Nat used in witnesses: exactly one
layout parses exactly one string. -/
def wEnv : TimeEnv Nat :=
  { parse := fun l s => if l = "1/2/2006" && s = "1/5/2017" then some 42 else none,
    now := 7,
    utc := fun t => t + 100,
    format := fun t => "time:" ++ toString t }

/-- A small accepted CSV body used as the concrete fetched input of the
sample refresh below. -/
def sampleCSV : String := "h\na\nb"

/-- The feed built from the sample body. -/
def sampleFeed : Rss := (fromCSV wEnv emptyRss sampleCSV numEntries).1

/-- Its serialization. -/
def sampleContent : String := xmlMarshal sampleFeed

/-- The cache state a successful refresh on the sample body produces. -/
def sampleState : CacheState :=
  { ready := true, cached := sampleContent, digest := digestOf sampleContent }

/-- A string every character of which lies in the XML character range
(such strings survive escaping unchanged in content). -/
def validStr (s : String) : Bool :=
  s.data.all inCharacterRange

/-- An item all of whose strings are XML-representable. -/
def validItem (it : Item) : Bool :=
  validStr it.title && validStr it.link && validStr it.description &&
  validStr it.pubDate && validStr it.category

/-- A feed document (version, channel metadata and every item) all of
whose strings are XML-representable; a document without a channel is not
a FeedDocument in the sense of the spec data model. -/
def validDoc (r : Rss) : Bool :=
  match r.channel with
  | none => false
  | some c =>
    validStr r.version && validStr c.title && validStr c.link &&
    validStr c.description && c.items.all validItem

/-- A document whose title contains a character outside the XML character
range (the NUL character), used to refute the unrestricted round-trip. -/
def invalidDoc0 : Rss :=
  { version := "2.0",
    channel := some { title := String.mk [Char.ofNat 0], link := "", description := "",
                      items := [] } }

/-! ### Proofs -/

/-- parseDateAux is the first successful parse over its layout list,
normalised with utc, with now as the fallback. -/
theorem parseDateAux_eq_findSome {τ : Type} (env : TimeEnv τ) (s : String)
    (ls : List String) :
    parseDateAux env s ls = env.utc ((ls.findSome? (fun l => env.parse l s)).getD env.now) := by
  induction ls with
  | nil => rfl
  | cons l ls ih =>
    simp only [parseDateAux, List.findSome?_cons]
    cases h : env.parse l s with
    | none => simpa [h] using ih
    | some p => simp [h]

/-- C5: for a string some layout parses, parseDate returns the first
successful parse normalised to UTC; for a string no layout parses, it
returns the current wall-clock time in UTC (a value, never an error). -/
theorem parseDate_first_success_or_now {τ : Type} (env : TimeEnv τ) (s : String) :
    (∀ t, firstSuccessfulParse env s = some t → parseDate env s = env.utc t) ∧
    (firstSuccessfulParse env s = none → parseDate env s = env.utc env.now) := by
  constructor
  · intro t ht
    rw [parseDate, parseDateAux_eq_findSome, firstSuccessfulParse] at *
    rw [ht]
    rfl
  · intro hn
    rw [parseDate, parseDateAux_eq_findSome, firstSuccessfulParse] at *
    rw [hn]
    rfl

/-- Witness for C5 at concrete inputs: the matched string yields the
parsed instant in UTC, the unmatched string yields now in UTC. -/
theorem parseDate_first_success_or_now_witness :
    parseDate wEnv "1/5/2017" = 142 ∧ parseDate wEnv "garbage" = 107 := by
  constructor
  · exact (parseDate_first_success_or_now wEnv "1/5/2017").1 42 (by decide)
  · exact (parseDate_first_success_or_now wEnv "garbage").2 (by decide)

/-- C3: on any accepted CSV with at most one row, fromCSV returns the
error of the empty-input check and the receiver document unchanged (no
version, channel or items set). -/
theorem fromCSV_empty_input {τ : Type} (env : TimeEnv τ) (rs : Rss) (s : String)
    (m : Int) (recs : List (List String))
    (hparse : csvReadAll s = .ok recs) (hlen : recs.length ≤ 1) :
    fromCSV env rs s m = (rs, some "no records") := by
  simp only [fromCSV, hparse]
  simp [fromCSVRecords, hlen]

/-- Witness for C3: a single header row, and separately an empty input,
both leave the zero-valued document unchanged and report the error. -/
theorem fromCSV_empty_input_witness :
    fromCSV wEnv emptyRss "h1,h2" 20 = (emptyRss, some "no records") ∧
    fromCSV wEnv emptyRss "" 20 = (emptyRss, some "no records") := by
  constructor
  · exact fromCSV_empty_input wEnv emptyRss "h1,h2" 20 [["h1", "h2"]] (by rfl) (by decide)
  · exact fromCSV_empty_input wEnv emptyRss "" 20 [] (by rfl) (by decide)

/-- C1 (code bug): the loop of fromCSV runs i from len(records)-1 while
i is strictly greater than start, so the row at index start is dropped.
On the two-row input below (one header, one data row) the claimed count
is min(20, 1) = 1, but the produced feed has no items at all. -/
theorem fromCSV_count_off_by_one {τ : Type} (env : TimeEnv τ) :
    itemCount (fromCSV env emptyRss "h\na" 20).1 = 0 ∧
    (fromCSV env emptyRss "h\na" 20).2 = none ∧
    min 20 (2 - 1) = 1 := by
  exact ⟨rfl, rfl, rfl⟩

set_option maxRecDepth 16384 in
/-- C2 (code bug): on the spec scenario CSV with N = 20, the code yields
exactly one item (the newest data row); the header-adjacent data row,
which the spec expects as the second item (Bill signed, http://x/1,
signing,executive), is dropped by the same strict loop bound. -/
theorem scenario_yields_single_item {τ : Type} (env : TimeEnv τ) :
    fromCSV env emptyRss scenarioCSV 20 =
      ({ version := "2.0",
         channel := some
           { title := feedTitle, link := feedURL, description := feedDesc,
             items := [{ title := "Vote held", link := "http://x/2",
                         description := "Another detail",
                         pubDate := env.format (parseDate env "1/5/2017"),
                         category := "vote,legislative" }] } }, none) := by
  rfl

/-- Whatever readAllAux returns on success extends its accumulator. -/
theorem readAllAux_extends (fuel : Nat) :
    ∀ (expected : Option Nat) (acc : List (List String)) (cs : List Char)
      (out : List (List String)),
      readAllAux fuel expected acc cs = .ok out → ∃ rest, out = acc ++ rest := by
  induction fuel with
  | zero => intro expected acc cs out h; simp [readAllAux] at h
  | succ fuel ih =>
    intro expected acc cs out h
    simp only [readAllAux] at h
    cases hsb : skipBlank cs with
    | nil =>
      rw [hsb] at h
      simp only [Except.ok.injEq] at h
      exact ⟨[], by simp [h]⟩
    | cons c cs' =>
      rw [hsb] at h
      cases hr : readRecordAux ((c :: cs').length + 1) [] (c :: cs') with
      | error e => rw [hr] at h; simp at h
      | ok p =>
        obtain ⟨rec, rest⟩ := p
        rw [hr] at h
        cases expected with
        | none =>
          obtain ⟨rest2, hrest⟩ := ih _ _ _ _ h
          exact ⟨rec :: rest2, by simpa using hrest⟩
        | some n =>
          simp only [] at h
          split at h
          · obtain ⟨rest2, hrest⟩ := ih _ _ _ _ h
            exact ⟨rec :: rest2, by simpa using hrest⟩
          · simp at h

/-- Field-count invariant of readAllAux: once the expected count is
fixed, every record of a successful result has that count. -/
theorem readAllAux_uniform (fuel : Nat) :
    ∀ (n : Nat) (acc : List (List String)) (cs : List Char)
      (out : List (List String)),
      readAllAux fuel (some n) acc cs = .ok out →
      (∀ r ∈ acc, r.length = n) → ∀ r ∈ out, r.length = n := by
  induction fuel with
  | zero => intro n acc cs out h _; simp [readAllAux] at h
  | succ fuel ih =>
    intro n acc cs out h hacc
    simp only [readAllAux] at h
    cases hsb : skipBlank cs with
    | nil =>
      rw [hsb] at h
      simp only [Except.ok.injEq] at h
      exact h ▸ hacc
    | cons c cs' =>
      rw [hsb] at h
      cases hr : readRecordAux ((c :: cs').length + 1) [] (c :: cs') with
      | error e => rw [hr] at h; simp at h
      | ok p =>
        obtain ⟨rec, rest⟩ := p
        rw [hr] at h
        simp only [] at h
        split at h
        next heq =>
          refine ih n (acc ++ [rec]) rest out h ?_
          intro r hr
          rcases List.mem_append.mp hr with hl | hrr
          · exact hacc r hl
          · simp at hrr; simpa [hrr] using heq
        next => simp at h

/-- C10: every record list the CSV reader accepts has uniform field
counts equal to the count of the first (header) record; hence an input in
which some row differs from the header is rejected with a parser error
before fromCSV can reach the record mapper, and a short data row is
unreachable through that path. -/
theorem csv_accepts_only_uniform_rows (s : String) (recs : List (List String))
    (h : csvReadAll s = .ok recs) :
    ∀ r ∈ recs, r.length = (recs.headD []).length := by
  rw [csvReadAll] at h
  rcases Nat.exists_eq_add_of_lt (Nat.zero_lt_succ s.length) with ⟨fuel, hfuel⟩
  rw [show s.length + 1 = fuel + 1 by omega] at h
  simp only [readAllAux] at h
  cases hsb : skipBlank s.data with
  | nil =>
    rw [hsb] at h
    simp only [Except.ok.injEq] at h
    simp [← h]
  | cons c cs' =>
    rw [hsb] at h
    cases hr : readRecordAux ((c :: cs').length + 1) [] (c :: cs') with
    | error e => rw [hr] at h; simp at h
    | ok p =>
      obtain ⟨rec, rest⟩ := p
      rw [hr] at h
      obtain ⟨rest2, hrest⟩ := readAllAux_extends fuel _ _ _ _ h
      have huni := readAllAux_uniform fuel rec.length [rec] rest recs h (by simp)
      intro r hmem
      rw [huni r hmem, hrest]
      simp

/-- Witness for C10: a concrete accepted two-column input; the second
record has the header record length. -/
theorem csv_accepts_only_uniform_rows_witness :
    (["c", "d"] : List String).length =
      (([["a", "b"], ["c", "d"]] : List (List String)).headD []).length := by
  exact csv_accepts_only_uniform_rows "a,b\nc,d" [["a", "b"], ["c", "d"]]
    (by rfl) ["c", "d"] (by simp)

set_option maxRecDepth 16384 in
/-- The sample refresh succeeds and produces the sample state. -/
theorem sampleRefresh : refreshStep wEnv sampleCSV initState = some sampleState := by
  rfl

/-- C8: the ready flag starts false, the handler never writes the cache
state, and every successful refresh ends in a state with ready true whose
bytes are the serialized feed and whose digest is derived from those
bytes; hence no operation ever sets ready back to false. -/
theorem cache_ready_lifecycle :
    initState.ready = false ∧
    (∀ (st : CacheState) (m : String), (serveHTTP st m).1 = st) ∧
    (∀ (τ : Type) (env : TimeEnv τ) (s : String) (st st' : CacheState),
       refreshStep env s st = some st' →
       st'.ready = true ∧
       st'.cached = xmlMarshal (fromCSV env emptyRss s numEntries).1 ∧
       st'.digest = digestOf st'.cached) := by
  refine ⟨rfl, ?_, ?_⟩
  · intro st m
    simp only [serveHTTP]
    split
    · rfl
    · split <;> split <;> rfl
  · intro τ env s st st' h
    rw [refreshStep] at h
    rcases hfc : fromCSV env emptyRss s numEntries with ⟨feed, err⟩
    rw [hfc] at h
    cases err with
    | some e => simp at h
    | none =>
      simp only [Option.some.injEq] at h
      subst h
      exact ⟨rfl, rfl, rfl⟩

/-- Witness for C8: the handler leaves the initial state unchanged, and
the concrete sample refresh yields a ready state. -/
theorem cache_ready_lifecycle_witness :
    (serveHTTP initState "POST").1 = initState ∧ sampleState.ready = true := by
  constructor
  · exact cache_ready_lifecycle.2.1 initState "POST"
  · exact (cache_ready_lifecycle.2.2 Nat wEnv sampleCSV initState sampleState sampleRefresh).1

/-- A hex pair is two characters long. -/
theorem hexPair_length (b : Nat) : (hexPair b).length = 2 := rfl

/-- Plain hex encoding has two characters per byte. -/
theorem hexEncode_length (bs : List Nat) : (hexEncode bs).length = 2 * bs.length := by
  induction bs with
  | nil => rfl
  | cons b rest ih =>
    simp only [hexEncode, String.length] at *
    simp [List.flatMap_cons, hexPair] at *
    omega

/-- The space-separated hex format has three characters per byte minus
the missing final space. -/
theorem spaceHexChars_length (bs : List Nat) (h : bs ≠ []) :
    (spaceHexChars bs).length = 3 * bs.length - 1 := by
  induction bs with
  | nil => exact absurd rfl h
  | cons b rest ih =>
    cases rest with
    | nil => rfl
    | cons c r =>
      have hne : c :: r ≠ ([] : List Nat) := by simp
      simp only [spaceHexChars, List.length_append, List.length_cons, hexPair_length] at *
      rw [ih hne]
      omega

/-- SHA-1 digests are twenty bytes. -/
theorem sha1Bytes_length (m : List Nat) : (sha1Bytes m).length = 20 := by
  simp only [sha1Bytes, be32]
  simp [List.length_append]

/-- C9 (amended): after every successful refresh the digest is the SHA-1
hash of the cached serialized bytes rendered in the space-separated hex
byte format of the percent, space, x verb. -/
theorem refresh_digest_space_hex_sha1 (τ : Type) (env : TimeEnv τ) (s : String)
    (st st' : CacheState) (h : refreshStep env s st = some st') :
    st'.digest = spaceHex (sha1Bytes (utf8Bytes st'.cached)) := by
  rw [refreshStep] at h
  rcases hfc : fromCSV env emptyRss s numEntries with ⟨feed, err⟩
  rw [hfc] at h
  cases err with
  | some e => simp at h
  | none =>
    simp only [Option.some.injEq] at h
    subst h
    rfl

/-- Witness for C9 at the concrete sample refresh. -/
theorem refresh_digest_space_hex_sha1_witness :
    sampleState.digest = spaceHex (sha1Bytes (utf8Bytes sampleState.cached)) :=
  refresh_digest_space_hex_sha1 Nat wEnv sampleCSV initState sampleState sampleRefresh

/-- C9 counterexample: the stored digest is not the plain hex encoding of
the SHA-1 hash: after the concrete sample refresh the digest is 59
characters (space-separated pairs) while the plain hex encoding of a
twenty-byte digest is 40 characters. -/
theorem digest_not_plain_hex :
    ¬ (∀ (τ : Type) (env : TimeEnv τ) (s : String) (st st' : CacheState),
         refreshStep env s st = some st' →
         st'.digest = hexEncode (sha1Bytes (utf8Bytes st'.cached))) := by
  intro hclaim
  have h := hclaim Nat wEnv sampleCSV initState sampleState sampleRefresh
  have hd : sampleState.digest = spaceHex (sha1Bytes (utf8Bytes sampleState.cached)) := rfl
  rw [hd] at h
  have hlen := congrArg String.length h
  have h20 : (sha1Bytes (utf8Bytes sampleState.cached)).length = 20 :=
    sha1Bytes_length _
  have hne : sha1Bytes (utf8Bytes sampleState.cached) ≠ [] := by
    intro hnil
    rw [hnil] at h20
    simp at h20
  have h59 : (spaceHex (sha1Bytes (utf8Bytes sampleState.cached))).length = 59 := by
    show (spaceHexChars _).length = 59
    rw [spaceHexChars_length _ hne, h20]
  have h40 : (hexEncode (sha1Bytes (utf8Bytes sampleState.cached))).length = 40 := by
    rw [hexEncode_length, h20]
  rw [h59, h40] at hlen
  exact absurd hlen (by decide)

/-- A serialized feed is never empty: it starts with the rss open tag. -/
theorem xmlMarshal_length_pos (r : Rss) : 0 < (xmlMarshal r).length := by
  have h : xmlMarshal r =
      "<rss version=\x22" ++ (escapeText r.version ++ ("\x22>" ++
        ((match r.channel with | none => "" | some c => marshalChannel c) ++ "</rss>"))) := by
    simp [xmlMarshal, String.append_assoc]
  rw [h, String.length_append]
  have : ("<rss version=\x22" : String).length = 14 := rfl
  omega

/-- Reachability invariant: in every ready cache state the cached bytes
are nonempty (they are a serialized feed). -/
theorem reachable_ready_cached_pos (st : CacheState) (h : Reachable st) :
    st.ready = true → 0 < st.cached.length := by
  induction h with
  | init => intro hr; simp [initState] at hr
  | refresh env s hst hstep ih =>
    intro _
    next st st' =>
    rw [refreshStep] at hstep
    rcases hfc : fromCSV env emptyRss s numEntries with ⟨feed, err⟩
    rw [hfc] at hstep
    cases err with
    | some e => simp at hstep
    | none =>
      simp only [Option.some.injEq] at hstep
      subst hstep
      exact xmlMarshal_length_pos feed

/-- C6: over every reachable cache state, a GET with the cache ready is
answered 200 with the XML declaration followed by the cached bytes, a GET
with the cache not ready is answered 404 with empty body, any other
method is answered 405 with empty body, and no status other than these
three is ever produced. -/
theorem serve_http_spec (st : CacheState) (hreach : Reachable st) :
    (st.ready = true →
       serveHTTP st "GET" = (st, { status := 200, body := xmlDecl ++ st.cached })) ∧
    (st.ready = false →
       serveHTTP st "GET" = (st, { status := 404, body := "" })) ∧
    (∀ m, m ≠ "GET" → serveHTTP st m = (st, { status := 405, body := "" })) ∧
    (∀ m, (serveHTTP st m).2.status = 200 ∨ (serveHTTP st m).2.status = 404 ∨
          (serveHTTP st m).2.status = 405) := by
  refine ⟨?_, ?_, ?_, ?_⟩
  · intro hready
    have hpos := reachable_ready_cached_pos st hreach hready
    simp [serveHTTP, hready, hpos]
  · intro hnready
    simp [serveHTTP, hnready]
  · intro m hm
    simp [serveHTTP, hm]
  · intro m
    simp only [serveHTTP]
    split
    · right; right; rfl
    · split <;> split <;> simp

/-- Witness for C6: the 404 before any refresh, the 405 on a non-GET
method, and the 200 with declaration plus cached bytes on the reachable
sample state. -/
theorem serve_http_spec_witness :
    serveHTTP initState "GET" = (initState, { status := 404, body := "" }) ∧
    serveHTTP initState "POST" = (initState, { status := 405, body := "" }) ∧
    serveHTTP sampleState "GET" =
      (sampleState, { status := 200, body := xmlDecl ++ sampleState.cached }) := by
  refine ⟨?_, ?_, ?_⟩
  · exact (serve_http_spec initState Reachable.init).2.1 rfl
  · exact (serve_http_spec initState Reachable.init).2.2.1 "POST" (by decide)
  · exact (serve_http_spec sampleState
      (Reachable.refresh wEnv sampleCSV Reachable.init sampleRefresh)).1 rfl

/-- A field index at or past the end of the data row reads as empty. -/
theorem getF_oob (fields : List String) (i : Nat) (h : fields.length ≤ i) :
    getF fields i = "" := by
  simp only [getF]
  rw [if_neg (by omega)]

/-- The category accumulator collects exactly the activity and branch
values in encounter order. -/
theorem fromRecordAux_cats {τ : Type} (env : TimeEnv τ) (fields : List String)
    (hs : List String) :
    ∀ (i : Nat) (e : Item) (cats : List String),
    (fromRecordAux env fields hs i e cats).2 =
      cats ++ ((hs.enumFrom i).filter (fun p => p.2 = "activity" ∨ p.2 = "branch")).map
        (fun p => getF fields p.1) := by
  induction hs with
  | nil => intro i e cats; simp [fromRecordAux]
  | cons h hs ih =>
    intro i e cats
    simp only [fromRecordAux]
    split_ifs with h1 h2 h3 h4 h5
    · subst h1; simp [ih, List.enumFrom_cons, List.filter_cons]
    · subst h2; simp [ih, List.enumFrom_cons, List.filter_cons]
    · subst h3; simp [ih, List.enumFrom_cons, List.filter_cons]
    · simp [ih, List.enumFrom_cons, List.filter_cons, h4, List.append_assoc]
    · subst h5; simp [ih, List.enumFrom_cons, List.filter_cons]
    · simp [ih, List.enumFrom_cons, List.filter_cons, h4]

/-- If every occurrence of the description column lies at or past the end
of the data row, the loop leaves the title unchanged or sets it empty. -/
theorem fromRecordAux_title_oob {τ : Type} (env : TimeEnv τ) (fields : List String)
    (hs : List String) :
    ∀ (i : Nat) (e : Item) (cats : List String),
    (∀ k, hs.get? k = some "description" → fields.length ≤ i + k) →
    ((fromRecordAux env fields hs i e cats).1.title = e.title ∨
     (fromRecordAux env fields hs i e cats).1.title = "") := by
  induction hs with
  | nil => intro i e cats _; left; rfl
  | cons h hs ih =>
    intro i e cats hk
    have hk' : ∀ k, hs.get? k = some "description" → fields.length ≤ (i + 1) + k := by
      intro k hg
      have := hk (k + 1) (by simpa using hg)
      omega
    simp only [fromRecordAux]
    split_ifs with h1 h2 h3 h4 h5
    · exact ih (i + 1) _ cats hk'
    · have h0 : fields.length ≤ i := by
        have := hk 0 (by simp [h2])
        omega
      rcases ih (i + 1) { e with title := getF fields i } cats hk' with hcase | hcase
      · right; rw [hcase]; exact getF_oob fields i h0
      · right; exact hcase
    · exact ih (i + 1) _ cats hk'
    · exact ih (i + 1) e _ hk'
    · exact ih (i + 1) _ cats hk'
    · exact ih (i + 1) e cats hk'

/-- Analogue of the title lemma for the article column and the link. -/
theorem fromRecordAux_link_oob {τ : Type} (env : TimeEnv τ) (fields : List String)
    (hs : List String) :
    ∀ (i : Nat) (e : Item) (cats : List String),
    (∀ k, hs.get? k = some "article" → fields.length ≤ i + k) →
    ((fromRecordAux env fields hs i e cats).1.link = e.link ∨
     (fromRecordAux env fields hs i e cats).1.link = "") := by
  induction hs with
  | nil => intro i e cats _; left; rfl
  | cons h hs ih =>
    intro i e cats hk
    have hk' : ∀ k, hs.get? k = some "article" → fields.length ≤ (i + 1) + k := by
      intro k hg
      have := hk (k + 1) (by simpa using hg)
      omega
    simp only [fromRecordAux]
    split_ifs with h1 h2 h3 h4 h5
    · exact ih (i + 1) _ cats hk'
    · exact ih (i + 1) _ cats hk'
    · have h0 : fields.length ≤ i := by
        have := hk 0 (by simp [h3])
        omega
      rcases ih (i + 1) { e with link := getF fields i } cats hk' with hcase | hcase
      · right; rw [hcase]; exact getF_oob fields i h0
      · right; exact hcase
    · exact ih (i + 1) e _ hk'
    · exact ih (i + 1) _ cats hk'
    · exact ih (i + 1) e cats hk'

/-- Analogue of the title lemma for the detail column and the description. -/
theorem fromRecordAux_description_oob {τ : Type} (env : TimeEnv τ) (fields : List String)
    (hs : List String) :
    ∀ (i : Nat) (e : Item) (cats : List String),
    (∀ k, hs.get? k = some "detail" → fields.length ≤ i + k) →
    ((fromRecordAux env fields hs i e cats).1.description = e.description ∨
     (fromRecordAux env fields hs i e cats).1.description = "") := by
  induction hs with
  | nil => intro i e cats _; left; rfl
  | cons h hs ih =>
    intro i e cats hk
    have hk' : ∀ k, hs.get? k = some "detail" → fields.length ≤ (i + 1) + k := by
      intro k hg
      have := hk (k + 1) (by simpa using hg)
      omega
    simp only [fromRecordAux]
    split_ifs with h1 h2 h3 h4 h5
    · exact ih (i + 1) _ cats hk'
    · exact ih (i + 1) _ cats hk'
    · exact ih (i + 1) _ cats hk'
    · exact ih (i + 1) e _ hk'
    · have h0 : fields.length ≤ i := by
        have := hk 0 (by simp [h5])
        omega
      rcases ih (i + 1) { e with description := getF fields i } cats hk' with hcase | hcase
      · right; rw [hcase]; exact getF_oob fields i h0
      · right; exact hcase
    · exact ih (i + 1) e cats hk'

/-- Without a date column the loop never touches pubDate. -/
theorem fromRecordAux_pubDate_absent {τ : Type} (env : TimeEnv τ) (fields : List String)
    (hs : List String) :
    ∀ (i : Nat) (e : Item) (cats : List String), "date" ∉ hs →
    (fromRecordAux env fields hs i e cats).1.pubDate = e.pubDate := by
  induction hs with
  | nil => intro i e cats _; rfl
  | cons h hs ih =>
    intro i e cats habs
    have hh : h ≠ "date" := by
      intro hcontr
      exact habs (by simp [hcontr])
    have hrest : "date" ∉ hs := by
      intro hcontr
      exact habs (by simp [hcontr])
    simp only [fromRecordAux]
    split_ifs with h1 h2 h3 h4 h5
    · exact absurd h1 hh
    · exact ih (i + 1) _ cats hrest
    · exact ih (i + 1) _ cats hrest
    · exact ih (i + 1) e _ hrest
    · exact ih (i + 1) _ cats hrest
    · exact ih (i + 1) e cats hrest

/-- The loop ignores unknown column names: replacing every unknown name
by the (unknown) empty name does not change the result. -/
theorem fromRecordAux_sanitize {τ : Type} (env : TimeEnv τ) (fields : List String)
    (hs : List String) :
    ∀ (i : Nat) (e : Item) (cats : List String),
    fromRecordAux env fields hs i e cats =
      fromRecordAux env fields (hs.map (fun h => if h ∈ knownCols then h else "")) i e cats := by
  induction hs with
  | nil => intro i e cats; rfl
  | cons h hs ih =>
    intro i e cats
    by_cases hknown : h ∈ knownCols
    · simp only [List.map_cons, if_pos hknown]
      simp only [fromRecordAux]
      split_ifs <;> exact ih _ _ _
    · have hd : h ≠ "date" := fun hc => hknown (by simp [knownCols, hc])
      have hde : h ≠ "description" := fun hc => hknown (by simp [knownCols, hc])
      have ha : h ≠ "article" := fun hc => hknown (by simp [knownCols, hc])
      have hab : ¬ (h = "activity" ∨ h = "branch") := by
        rintro (hc | hc) <;> exact hknown (by simp [knownCols, hc])
      have hdt : h ≠ "detail" := fun hc => hknown (by simp [knownCols, hc])
      simp only [List.map_cons, if_neg hknown]
      simp only [fromRecordAux]
      rw [if_neg hd, if_neg hde, if_neg ha, if_neg hab, if_neg hdt]
      rw [if_neg (by decide : ¬ ("" : String) = "date"),
          if_neg (by decide : ¬ ("" : String) = "description"),
          if_neg (by decide : ¬ ("" : String) = "article"),
          if_neg (by decide : ¬ (("" : String) = "activity" ∨ ("" : String) = "branch")),
          if_neg (by decide : ¬ ("" : String) = "detail")]
      exact ih _ _ _

/-- C4 (amended): fromRecord is total by construction; title, link and
description are empty whenever their column is absent or every occurrence
of it lies past the end of the data row; pubDate is empty whenever the
date column is absent; the category is exactly the activity and branch
values in encounter order (values past the end reading as empty) joined
by commas; and unknown column names never influence the result. -/
theorem fromRecord_total_spec {τ : Type} (env : TimeEnv τ) (headers fields : List String) :
    ((∀ k, headers.get? k = some "description" → fields.length ≤ k) →
      (fromRecord env headers fields).title = "") ∧
    ((∀ k, headers.get? k = some "article" → fields.length ≤ k) →
      (fromRecord env headers fields).link = "") ∧
    ((∀ k, headers.get? k = some "detail" → fields.length ≤ k) →
      (fromRecord env headers fields).description = "") ∧
    ("date" ∉ headers → (fromRecord env headers fields).pubDate = "") ∧
    ((fromRecord env headers fields).category =
      String.intercalate "," (catsSpec headers fields)) ∧
    (fromRecord env headers fields =
      fromRecord env (headers.map (fun h => if h ∈ knownCols then h else "")) fields) := by
  refine ⟨?_, ?_, ?_, ?_, ?_, ?_⟩
  · intro hk
    have := fromRecordAux_title_oob env fields headers 0 emptyItem []
      (by intro k hg; simpa using hk k hg)
    rcases this with hcase | hcase
    · simp [fromRecord]; rw [hcase]; rfl
    · simp [fromRecord]; rw [hcase]
  · intro hk
    have := fromRecordAux_link_oob env fields headers 0 emptyItem []
      (by intro k hg; simpa using hk k hg)
    rcases this with hcase | hcase
    · simp [fromRecord]; rw [hcase]; rfl
    · simp [fromRecord]; rw [hcase]
  · intro hk
    have := fromRecordAux_description_oob env fields headers 0 emptyItem []
      (by intro k hg; simpa using hk k hg)
    rcases this with hcase | hcase
    · simp [fromRecord]; rw [hcase]; rfl
    · simp [fromRecord]; rw [hcase]
  · intro habs
    have := fromRecordAux_pubDate_absent env fields headers 0 emptyItem [] habs
    simp [fromRecord]
    rw [this]
    rfl
  · have := fromRecordAux_cats env fields headers 0 emptyItem []
    simp only [fromRecord]
    rw [this]
    simp [catsSpec, List.enum]
  · simp only [fromRecord]
    rw [← fromRecordAux_sanitize env fields headers 0 emptyItem []]

/-- Witness for C4 at concrete inputs: an out-of-range description column
leaves the title empty, a single unknown column leaves pubDate empty, and
the category equation holds on a mixed header row. -/
theorem fromRecord_total_spec_witness :
    (fromRecord wEnv ["x", "description"] []).title = "" ∧
    (fromRecord wEnv ["q"] ["v"]).pubDate = "" ∧
    (fromRecord wEnv ["activity", "z", "branch"] ["a"]).category =
      String.intercalate "," (catsSpec ["activity", "z", "branch"] ["a"]) := by
  refine ⟨?_, ?_, ?_⟩
  · exact (fromRecord_total_spec wEnv ["x", "description"] []).1 (fun k _ => Nat.zero_le k)
  · exact (fromRecord_total_spec wEnv ["q"] ["v"]).2.2.2.1 (by decide)
  · exact (fromRecord_total_spec wEnv ["activity", "z", "branch"] ["a"]).2.2.2.2.1

/-- C4 counterexample: for a data row shorter than the header row the
pubDate field is not the empty string: the date value reads as empty, no
layout parses it, and the formatted fallback time is stored.  (The real
RFC1123Z rendering of a time is likewise never empty.) -/
theorem fromRecord_pubDate_oob_not_empty :
    (fromRecord wEnv ["date"] []).pubDate = "time:107" ∧ ("time:107" : String) ≠ "" := by
  exact ⟨rfl, by decide⟩

/-- Dropping an expected literal from itself plus a tail succeeds. -/
theorem dropLit_append (l : List Char) : ∀ cs : List Char, dropLit l (l ++ cs) = some cs := by
  induction l with
  | nil => intro cs; rfl
  | cons c l ih => intro cs; simp [dropLit, ih]

/-- The escaped form of one valid character reads back as that character:
one step of readText over an escChar output. -/
theorem readText_escChar (stop : Char) (hstop : stop = '<' ∨ stop = '"')
    (c : Char) (hc : inCharacterRange c = true) (acc rest : List Char) :
    readText stop acc ((escChar c).data ++ rest) = readText stop (c :: acc) rest := by
  simp only [escChar]
  split_ifs with h1 h2 h3 h4 h5 h6 h7 h8
  · subst h1
    rw [show ("&#34;" : String).data ++ rest = '&' :: '#' :: '3' :: '4' :: ';' :: rest from rfl]
    rcases hstop with h | h <;> subst h <;> simp [readText]
  · subst h2
    rw [show ("&#39;" : String).data ++ rest = '&' :: '#' :: '3' :: '9' :: ';' :: rest from rfl]
    rcases hstop with h | h <;> subst h <;> simp [readText]
  · subst h3
    rw [show ("&amp;" : String).data ++ rest = '&' :: 'a' :: 'm' :: 'p' :: ';' :: rest from rfl]
    rcases hstop with h | h <;> subst h <;> simp [readText]
  · subst h4
    rw [show ("&lt;" : String).data ++ rest = '&' :: 'l' :: 't' :: ';' :: rest from rfl]
    rcases hstop with h | h <;> subst h <;>
      (match rest with
       | [] => simp [readText]
       | c4 :: rest4 => simp [readText])
  · subst h5
    rw [show ("&gt;" : String).data ++ rest = '&' :: 'g' :: 't' :: ';' :: rest from rfl]
    rcases hstop with h | h <;> subst h <;>
      (match rest with
       | [] => simp [readText]
       | c4 :: rest4 => simp [readText])
  · subst h6
    rw [show ("&#x9;" : String).data ++ rest = '&' :: '#' :: 'x' :: '9' :: ';' :: rest from rfl]
    rcases hstop with h | h <;> subst h <;> simp [readText]
  · subst h7
    rw [show ("&#xA;" : String).data ++ rest = '&' :: '#' :: 'x' :: 'A' :: ';' :: rest from rfl]
    rcases hstop with h | h <;> subst h <;> simp [readText]
  · subst h8
    rw [show ("&#xD;" : String).data ++ rest = '&' :: '#' :: 'x' :: 'D' :: ';' :: rest from rfl]
    rcases hstop with h | h <;> subst h <;> simp [readText]
  · have hcs : ¬ c = stop := by
      rcases hstop with h | h <;> subst h
      · exact h4
      · exact h1
    have hsd : (String.singleton c).data ++ rest = c :: rest := rfl
    rw [hsd]
    match rest with
    | [] => simp only [readText]; rw [if_neg hcs, if_neg h3]
    | [c1] => simp only [readText]; rw [if_neg hcs, if_neg h3]
    | [c1, c2] => simp only [readText]; rw [if_neg hcs, if_neg h3]
    | [c1, c2, c3] => simp only [readText]; rw [if_neg hcs, if_neg h3]
    | c1 :: c2 :: c3 :: c4 :: rest4 => simp only [readText]; rw [if_neg hcs, if_neg h3]

/-- Escaped valid text followed by its stop character reads back whole. -/
theorem readText_escData (stop : Char) (hstop : stop = '<' ∨ stop = '"')
    (l : List Char) (hl : ∀ c ∈ l, inCharacterRange c = true) :
    ∀ (acc rest : List Char),
    readText stop acc (escData l ++ stop :: rest) =
      some (String.mk (acc.reverse ++ l), stop :: rest) := by
  induction l with
  | nil =>
    intro acc rest
    show readText stop acc (stop :: rest) = _
    match rest with
    | [] => simp [readText]
    | [c1] => simp [readText]
    | [c1, c2] => simp [readText]
    | [c1, c2, c3] => simp [readText]
    | c1 :: c2 :: c3 :: c4 :: rest4 => simp [readText]
  | cons c l ih =>
    intro acc rest
    have hc : inCharacterRange c = true := hl c (by simp)
    have hl' : ∀ x ∈ l, inCharacterRange x = true := fun x hx => hl x (by simp [hx])
    show readText stop acc ((escChar c).data ++ escData l ++ stop :: rest) = _
    rw [List.append_assoc, readText_escChar stop hstop c hc, ih hl' (c :: acc)]
    simp

/-- Text segment before the title closing tag of an item or the channel. -/
theorem readText_seg_title (l : List Char) (hl : ∀ c ∈ l, inCharacterRange c = true)
    (X : List Char) :
    readText '<' [] (escData l ++ ("</title><link>".data ++ X)) =
      some (String.mk l, "</title><link>".data ++ X) := by
  simpa using readText_escData '<' (Or.inl rfl) l hl [] ("/title><link>".data ++ X)

/-- Text segment before the link closing tag. -/
theorem readText_seg_link (l : List Char) (hl : ∀ c ∈ l, inCharacterRange c = true)
    (X : List Char) :
    readText '<' [] (escData l ++ ("</link><description>".data ++ X)) =
      some (String.mk l, "</link><description>".data ++ X) := by
  simpa using readText_escData '<' (Or.inl rfl) l hl [] ("/link><description>".data ++ X)

/-- Text segment before the description closing tag. -/
theorem readText_seg_description (l : List Char) (hl : ∀ c ∈ l, inCharacterRange c = true)
    (X : List Char) :
    readText '<' [] (escData l ++ ("</description>".data ++ X)) =
      some (String.mk l, "</description>".data ++ X) := by
  simpa using readText_escData '<' (Or.inl rfl) l hl [] ("/description>".data ++ X)

/-- Text segment before the pubDate closing tag. -/
theorem readText_seg_pubDate (l : List Char) (hl : ∀ c ∈ l, inCharacterRange c = true)
    (X : List Char) :
    readText '<' [] (escData l ++ ("</pubDate>".data ++ X)) =
      some (String.mk l, "</pubDate>".data ++ X) := by
  simpa using readText_escData '<' (Or.inl rfl) l hl [] ("/pubDate>".data ++ X)

/-- Text segment before the category closing tag. -/
theorem readText_seg_category (l : List Char) (hl : ∀ c ∈ l, inCharacterRange c = true)
    (X : List Char) :
    readText '<' [] (escData l ++ ("</category>".data ++ X)) =
      some (String.mk l, "</category>".data ++ X) := by
  simpa using readText_escData '<' (Or.inl rfl) l hl [] ("/category>".data ++ X)

/-- The version attribute value before its closing quote. -/
theorem readText_seg_version (l : List Char) (hl : ∀ c ∈ l, inCharacterRange c = true)
    (X : List Char) :
    readText '"' [] (escData l ++ ("\x22><channel><title>".data ++ X)) =
      some (String.mk l, "\x22><channel><title>".data ++ X) := by
  simpa using readText_escData '"' (Or.inr rfl) l hl [] ("><channel><title>".data ++ X)

/-- Rebuilding a string from its character list is the identity. -/
theorem mk_data (s : String) : String.mk s.data = s := rfl

/-- The character list of the empty string. -/
theorem data_empty : ("" : String).data = [] := rfl

/-- The item open tag is a head of a marshalled item. -/
theorem ipo_item (X : List Char) :
    (['<', 'i', 't', 'e', 'm', '>'] : List Char).isPrefixOf
      (['<', 'i', 't', 'e', 'm', '>', '<', 't', 'i', 't', 'l', 'e', '>'] ++ X) = true := rfl

/-- A list heads itself followed by anything. -/
theorem isPrefixOf_self_append (l r : List Char) : l.isPrefixOf (l ++ r) = true := by
  induction l with
  | nil => simp [List.isPrefixOf]
  | cons c l ih => simp [List.isPrefixOf, ih]

/-- The pubDate open tag heads its own element. -/
theorem ipo_pubDate_self (X : List Char) :
    (['<', 'p', 'u', 'b', 'D', 'a', 't', 'e', '>'] : List Char).isPrefixOf
      (['<', 'p', 'u', 'b', 'D', 'a', 't', 'e', '>'] ++ X) = true :=
  isPrefixOf_self_append _ _

/-- The category open tag heads its own element. -/
theorem ipo_category_self (X : List Char) :
    (['<', 'c', 'a', 't', 'e', 'g', 'o', 'r', 'y', '>'] : List Char).isPrefixOf
      (['<', 'c', 'a', 't', 'e', 'g', 'o', 'r', 'y', '>'] ++ X) = true :=
  isPrefixOf_self_append _ _

/-- The character list of an escaped string is escData of its characters. -/
theorem escapeText_data (s : String) : (escapeText s).data = escData s.data := rfl

/-- A category element does not look like a pubDate element. -/
theorem ipo_pubDate_category (X : List Char) :
    (['<', 'p', 'u', 'b', 'D', 'a', 't', 'e', '>'] : List Char).isPrefixOf
      (['<', 'c', 'a', 't', 'e', 'g', 'o', 'r', 'y', '>'] ++ X) = false := rfl

/-- The item close tag does not look like a pubDate element. -/
theorem ipo_pubDate_enditem (X : List Char) :
    (['<', 'p', 'u', 'b', 'D', 'a', 't', 'e', '>'] : List Char).isPrefixOf
      (['<', '/', 'i', 't', 'e', 'm', '>'] ++ X) = false := rfl

/-- The item close tag does not look like a category element. -/
theorem ipo_category_enditem (X : List Char) :
    (['<', 'c', 'a', 't', 'e', 'g', 'o', 'r', 'y', '>'] : List Char).isPrefixOf
      (['<', '/', 'i', 't', 'e', 'm', '>'] ++ X) = false := rfl

/-- The channel close tag does not look like an item element. -/
theorem ipo_item_endchannel (X : List Char) :
    (['<', 'i', 't', 'e', 'm', '>'] : List Char).isPrefixOf
      (['<', '/', 'c', 'h', 'a', 'n', 'n', 'e', 'l', '>', '<', '/', 'r', 's', 's', '>'] ++ X) = false := rfl

set_option maxHeartbeats 1600000 in
/-- Parsing a marshalled item from the front of a stream returns exactly
that item and the untouched remainder. -/
theorem parseItem_roundtrip (it : Item) (hv : validItem it = true) (X : List Char) :
    parseItem ((marshalItem it).data ++ X) = some (it, X) := by
  have hval := hv
  simp only [validItem, Bool.and_eq_true, validStr, List.all_eq_true] at hval
  obtain ⟨⟨⟨⟨ht, hl⟩, hd⟩, hp⟩, hk⟩ := hval
  by_cases hpe : it.pubDate = "" <;> by_cases hke : it.category = ""
  · simp only [marshalItem, if_pos hpe, if_pos hke, String.data_append,
               escapeText_data, data_empty, List.append_assoc, List.nil_append]
    simp only [parseItem, Option.bind_eq_bind, Option.some_bind, dropLit_append,
          readText_seg_title it.title.data ht,
          readText_seg_link it.link.data hl,
          readText_seg_description it.description.data hd,
          ipo_pubDate_enditem, ipo_category_enditem,
          Bool.false_eq_true, eq_self_iff_true, if_true, if_false,
          Option.pure_def, mk_data, Option.some.injEq, Prod.mk.injEq]
    have hexp : it = Item.mk it.title it.link it.description it.pubDate it.category := rfl
    refine ⟨?_, trivial⟩
    conv_rhs => rw [hexp]
    rw [hpe, hke]
  · simp only [marshalItem, if_pos hpe, if_neg hke, String.data_append,
               escapeText_data, data_empty, List.append_assoc, List.nil_append]
    simp only [parseItem, Option.bind_eq_bind, Option.some_bind, dropLit_append,
          readText_seg_title it.title.data ht,
          readText_seg_link it.link.data hl,
          readText_seg_description it.description.data hd,
          readText_seg_category it.category.data hk,
          ipo_pubDate_category, ipo_category_self,
          Bool.false_eq_true, eq_self_iff_true, if_true, if_false,
          Option.pure_def, mk_data, Option.some.injEq, Prod.mk.injEq]
    have hexp : it = Item.mk it.title it.link it.description it.pubDate it.category := rfl
    refine ⟨?_, trivial⟩
    conv_rhs => rw [hexp]
    rw [hpe]
  · simp only [marshalItem, if_neg hpe, if_pos hke, String.data_append,
               escapeText_data, data_empty, List.append_assoc, List.nil_append]
    simp only [parseItem, Option.bind_eq_bind, Option.some_bind, dropLit_append,
          readText_seg_title it.title.data ht,
          readText_seg_link it.link.data hl,
          readText_seg_description it.description.data hd,
          readText_seg_pubDate it.pubDate.data hp,
          ipo_pubDate_self, ipo_category_enditem,
          Bool.false_eq_true, eq_self_iff_true, if_true, if_false,
          Option.pure_def, mk_data, Option.some.injEq, Prod.mk.injEq]
    have hexp : it = Item.mk it.title it.link it.description it.pubDate it.category := rfl
    refine ⟨?_, trivial⟩
    conv_rhs => rw [hexp]
    rw [hke]
  · simp only [marshalItem, if_neg hpe, if_neg hke, String.data_append,
               escapeText_data, data_empty, List.append_assoc, List.nil_append]
    simp only [parseItem, Option.bind_eq_bind, Option.some_bind, dropLit_append,
          readText_seg_title it.title.data ht,
          readText_seg_link it.link.data hl,
          readText_seg_description it.description.data hd,
          readText_seg_pubDate it.pubDate.data hp,
          readText_seg_category it.category.data hk,
          ipo_pubDate_self, ipo_category_self,
          Bool.false_eq_true, eq_self_iff_true, if_true, if_false,
          Option.pure_def, mk_data, Option.some.injEq, Prod.mk.injEq]

/-- Boundary between the rss attribute close and the channel open tags. -/
theorem append_attr_close (X : List Char) :
    (['"', '>'] : List Char) ++
      (['<', 'c', 'h', 'a', 'n', 'n', 'e', 'l', '>', '<', 't', 'i', 't', 'l', 'e', '>'] ++ X) =
    ['"', '>', '<', 'c', 'h', 'a', 'n', 'n', 'e', 'l', '>', '<', 't', 'i', 't', 'l', 'e', '>'] ++ X := rfl

/-- Boundary between the channel close and the rss close tags. -/
theorem append_chan_close :
    (['<', '/', 'c', 'h', 'a', 'n', 'n', 'e', 'l', '>'] : List Char) ++ ['<', '/', 'r', 's', 's', '>'] =
    ['<', '/', 'c', 'h', 'a', 'n', 'n', 'e', 'l', '>', '<', '/', 'r', 's', 's', '>'] ++ [] := rfl

/-- Each marshalled item contributes at least one character. -/
theorem marshalItems_length (its : List Item) :
    its.length ≤ (marshalItems its).data.length := by
  induction its with
  | nil => simp [marshalItems]
  | cons it its ih =>
    have hlen : ∀ s t : String, (s ++ t).data.length = s.data.length + t.data.length := by
      intro s t
      simp [String.data_append]
    simp only [marshalItems, List.length_cons, hlen]
    have h1 : 13 ≤ (marshalItem it).data.length := by
      simp only [marshalItem, hlen]
      have h13 : (['<', 'i', 't', 'e', 'm', '>', '<', 't', 'i', 't', 'l', 'e', '>'] : List Char).length = 13 := rfl
      omega
    omega

/-- The item open tag heads any marshalled item. -/
theorem ipo_item_marshal (it : Item) (X : List Char) :
    ("<item>".data : List Char).isPrefixOf ((marshalItem it).data ++ X) = true := by
  simp only [marshalItem, String.data_append, List.append_assoc]
  exact ipo_item _

/-- Parsing the marshalled item list before the channel close tag
collects exactly those items. -/
theorem parseItems_roundtrip (its : List Item) :
    ∀ (fuel : Nat) (acc : List Item) (X : List Char),
    (∀ it ∈ its, validItem it = true) → its.length < fuel →
    parseItems fuel acc ((marshalItems its).data ++
        (['<', '/', 'c', 'h', 'a', 'n', 'n', 'e', 'l', '>', '<', '/', 'r', 's', 's', '>'] ++ X)) =
      some (acc ++ its,
        ['<', '/', 'c', 'h', 'a', 'n', 'n', 'e', 'l', '>', '<', '/', 'r', 's', 's', '>'] ++ X) := by
  induction its with
  | nil =>
    intro fuel acc X _ hfuel
    cases fuel with
    | zero => omega
    | succ f =>
      simp only [marshalItems, data_empty, List.nil_append]
      simp only [parseItems, ipo_item_endchannel, Bool.false_eq_true, if_false,
                 List.append_nil]
  | cons it its ih =>
    intro fuel acc X hval hfuel
    cases fuel with
    | zero => omega
    | succ f =>
      have hvit : validItem it = true := hval it (by simp)
      have hvits : ∀ x ∈ its, validItem x = true := fun x hx => hval x (by simp [hx])
      simp only [marshalItems, String.data_append, List.append_assoc]
      simp only [parseItems, ipo_item_marshal, eq_self_iff_true, if_true]
      rw [parseItem_roundtrip it hvit]
      dsimp only
      rw [ih f (acc ++ [it]) X hvits (by simp at hfuel; omega)]
      simp [List.append_assoc]
      exact List.isPrefixOf_iff_prefix.mp (ipo_item_marshal it _)

set_option maxHeartbeats 1600000 in
/-- C7 (amended): serializing a feed document whose strings consist of
XML-representable characters and parsing the serialized feed format back
recovers exactly the same document; in particular the title, link,
description, pubDate and category strings of every entry round-trip under
exact string equality. -/
theorem feed_roundtrip (r : Rss) (hv : validDoc r = true) :
    parseFeed (xmlMarshal r) = some r := by
  rcases hch : r.channel with _ | c
  · rw [validDoc, hch] at hv
    simp at hv
  · have hv' := hv
    rw [validDoc, hch] at hv'
    simp only [Bool.and_eq_true, validStr, List.all_eq_true] at hv'
    obtain ⟨⟨⟨⟨hversion, htitle⟩, hlink⟩, hdesc⟩, hitems⟩ := hv'
    have hfuel : ∀ T : List Char,
        c.items.length < ((marshalItems c.items).data ++ T).length + 1 := by
      intro T
      have := marshalItems_length c.items
      simp only [List.length_append]
      omega
    simp only [xmlMarshal, hch, marshalChannel, parseFeed, String.data_append,
               escapeText_data, List.append_assoc, append_attr_close, append_chan_close,
               Option.bind_eq_bind, Option.some_bind, dropLit_append,
               readText_seg_version r.version.data hversion,
               readText_seg_title c.title.data htitle,
               readText_seg_link c.link.data hlink,
               readText_seg_description c.description.data hdesc,
               mk_data]
    rw [parseItems_roundtrip c.items
          (((marshalItems c.items).data ++
            (['<', '/', 'c', 'h', 'a', 'n', 'n', 'e', 'l', '>', '<', '/', 'r', 's', 's', '>'] ++
              ([] : List Char))).length + 1)
          [] [] hitems (hfuel _)]
    simp only [Option.some_bind, List.nil_append, dropLit_append]
    conv_rhs => rw [show r = Rss.mk r.version r.channel from rfl, hch,
                    show c = Channel.mk c.title c.link c.description c.items from rfl]
    rfl

/-- Witness for C7: the serialized sample feed parses back to itself. -/
theorem feed_roundtrip_witness :
    parseFeed (xmlMarshal sampleFeed) = some sampleFeed :=
  feed_roundtrip sampleFeed (by decide)

/-- C7 counterexample: a document whose title holds the NUL character
does not round-trip: escaping replaces the character with the Unicode
replacement character, so parsing the serialized bytes yields a different
title string. -/
theorem feed_roundtrip_fails_on_invalid :
    parseFeed (xmlMarshal invalidDoc0) ≠ some invalidDoc0 := by decide

end FedGov
